import Mathlib

/-!
Verification of the `decision` Django application (`src/decision/models.py`):
a liquid-democracy voting core.  The Python models and the two signal
handlers (`prevent_delegation_to_self`, `propagate_vote`) are shallowly
embedded below: rows are records over `Nat` identifiers, the database is a
pair of lists (the `decision_vote` and `decision_delegation` tables) and
the recursive `WITH RECURSIVE dlg(...)` SQL query of `propagate_vote` is
embedded as the stabilised iterate of its one-step `UNION` operator over a
`Finset` of rows (the `UNION` of the recursive CTE has set semantics over
whole rows).

The Python code raises the bare built-in `Exception` at two sites (failed
authorization lookup and direct-vote protection inside `Poll.set_vote`);
the error enumeration below names each raise site by the name the
surrounding project documentation uses for it (`unauthorized`,
`directVoteProtected`), keeping the raise sites distinguishable.
-/

namespace Decision

abbrev UserId := Nat
abbrev CategoryId := Nat
abbrev PollId := Nat
abbrev ChoiceId := Nat

/-- Row of `decision_poll`: `category` is a nullable foreign key, `is_open`
a boolean flag (model `Poll`). -/
structure Poll where
  id : PollId
  category : Option CategoryId
  is_open : Bool
deriving DecidableEq, Repr

/-- Row of `decision_choice`: every choice belongs to exactly one poll
(model `Choice`). -/
structure Choice where
  id : ChoiceId
  poll : PollId
deriving DecidableEq, Repr

/-- Row of `decision_vote` (model `Vote`): `delegate` is nullable — `none`
for a vote cast directly by the user. -/
structure Vote where
  user : UserId
  poll : PollId
  choice : ChoiceId
  delegate : Option UserId
deriving DecidableEq, Repr

/-- Row of `decision_delegation` (model `Delegation`) together with its
`categories` many-to-many scope set. -/
structure Delegation where
  follower : UserId
  leader : UserId
  categories : Finset CategoryId
deriving DecidableEq

/-- One row of the recursive CTE `dlg(dlg_user_id, dlg_poll_id,
dlg_choice_id, dlg_delegate_id)` in `propagate_vote`. -/
structure Row where
  user : UserId
  poll : PollId
  choice : ChoiceId
  delegate : Option UserId
deriving DecidableEq, Repr

/-- The persistent state: the `decision_vote` and `decision_delegation`
tables. -/
structure DB where
  votes : List Vote
  delegations : List Delegation
deriving DecidableEq

/-- Two vote rows collide on the `unique_together = ('user', 'poll')`
constraint of `Vote.Meta`. -/
def clash (a b : Vote) : Bool :=
  a.user == b.user && a.poll == b.poll

/-- The storage invariant enforced by `unique_together = ('user', 'poll')`:
at most one vote row per (user, poll). -/
def UniqueVotes (V : List Vote) : Prop :=
  List.Pairwise (fun a b => clash a b = false) V

instance (V : List Vote) : Decidable (UniqueVotes V) := by
  unfold UniqueVotes; exact List.instDecidablePairwise V

/-- Boolean check that a batch of fresh rows is collision-free among
itself. -/
def nodupPairs : List Vote → Bool
  | [] => true
  | r :: rs => rs.all (fun w => !clash r w) && nodupPairs rs

/-- The correlated subquery
`SELECT COUNT(v.id) FROM decision_vote AS v WHERE v.user_id = ... AND
v.poll_id = ...` used by `propagate_vote`'s cutoff condition. -/
def countVotes (V : List Vote) (user : UserId) (poll : PollId) : Nat :=
  (V.filter (fun v => v.user == user && v.poll == poll)).length

/-- Embedding of `self.votes.get(user=user)` (`Poll.get_vote`): lookup of the unique
vote row of `user` on this poll, `none` for `Vote.DoesNotExist`. -/
def get_vote (V : List Vote) (p : Poll) (user : UserId) : Option Vote :=
  V.find? (fun v => v.user == user && v.poll == p.id)

/-- Embedding of `Poll.get_user_choice`: returns the user's choice, and `None` when
`Vote.DoesNotExist` is caught. -/
def get_user_choice (db : DB) (p : Poll) (user : UserId) : Option ChoiceId :=
  match get_vote db.votes p user with
  | some v => some v.choice
  | none => none

/-- The ORM filter `Q(categories=None) | Q(categories=self.category)` of
the authorization lookup in `Poll.set_vote`: matches a delegation whose
scope is empty (the many-to-many join row is NULL) or, when the poll has
a category, whose scope contains it.  For a category-less poll both `Q`
branches are `categories=None`, i.e. only empty-scoped delegations match. -/
def authScope (d : Delegation) (p : Poll) : Bool :=
  decide (d.categories = ∅) ||
    (match p.category with
     | some c => decide (c ∈ d.categories)
     | none => decide (d.categories = ∅))

/-- Holds when `Delegation.objects.get(Q(categories=None) | Q(categories=self.category),
leader=delegate, follower=user)` succeeds, i.e. a matching delegation row
exists. -/
def checkAuth (db : DB) (p : Poll) (user leader : UserId) : Bool :=
  db.delegations.any (fun d =>
    d.leader == leader && d.follower == user && authScope d p)

/-- The `extra_condition` spliced into the recursive SQL of
`propagate_vote`: if the poll has a category, the delegation has no scope
rows (`d.id NOT IN (SELECT dc.delegation_id ...)`) or a scope row for the
poll's category; if the poll has no category, the delegation's scope row
count is `< 1`. -/
def extraCond (d : Delegation) (p : Poll) : Bool :=
  match p.category with
  | some c => decide (d.categories = ∅) || decide (c ∈ d.categories)
  | none => decide (d.categories.card < 1)

/-- The `WHERE` clause of the recursive member of the CTE, for a
delegation row `d` joined against a CTE row `row`:
`d.leader_id = dlg_user_id AND (extra_condition) AND (vote count of the
follower on dlg_poll_id) < 1`. -/
def admits (V : List Vote) (p : Poll) (row : Row) (d : Delegation) : Bool :=
  d.leader == row.user && extraCond d p &&
    decide (countVotes V d.follower row.poll < 1)

/-- The row produced by the recursive member's `SELECT`:
`(d.follower_id, dlg_poll_id, dlg_choice_id, d.leader_id)`. -/
def mkCandidate (d : Delegation) (row : Row) : Row :=
  ⟨d.follower, row.poll, row.choice, some d.leader⟩

/-- One round of the recursive CTE: the current row set `UNION` every row
derived from it through an admitted delegation edge.  `UNION` (not
`UNION ALL`) deduplicates whole rows, hence the `Finset`. -/
def dlgStep (G : List Delegation) (V : List Vote) (p : Poll)
    (s : Finset Row) : Finset Row :=
  s ∪ s.biUnion (fun row =>
    ((G.filter (admits V p row)).map (fun d => mkCandidate d row)).toFinset)

/-- The non-recursive seed of the CTE:
`VALUES(instance.user_id, instance.poll_id, instance.choice_id, null)`. -/
def seedRow (p : Poll) (root : UserId) (choice : ChoiceId) : Row :=
  ⟨root, p.id, choice, none⟩

/-- Iteration of `n` rounds of the CTE starting from the seed row. -/
def dlgIter (G : List Delegation) (V : List Vote) (p : Poll)
    (root : UserId) (choice : ChoiceId) (n : Nat) : Finset Row :=
  (dlgStep G V p)^[n] {seedRow p root choice}

/-- The set of rows the `INSERT INTO decision_vote ... SELECT ... FROM dlg
WHERE dlg_user_id != instance.user_id` statement of `propagate_vote`
writes: the stabilised CTE (its fixed point is reached within `|G| + 1`
rounds, since each round only adds rows drawn from a pool of at most
`|G| + 1` candidates) minus the root's own row. -/
def propagate_vote (G : List Delegation) (V : List Vote) (p : Poll)
    (root : UserId) (choice : ChoiceId) : Finset Row :=
  (dlgIter G V p root choice (G.length + 1)).filter (fun r => r.user ≠ root)

/-- Upper bound on the rows the CTE can ever contain: the seed row plus
one candidate row per delegation edge (the delegation graph fixes the
follower and leader, the run fixes poll and choice). -/
def rowUniverse (G : List Delegation) (p : Poll) (root : UserId)
    (choice : ChoiceId) : Finset Row :=
  insert (seedRow p root choice)
    ((G.map (fun d =>
      (⟨d.follower, p.id, choice, some d.leader⟩ : Row))).toFinset)

/-- Existence of a delegation chain from `root` down to a user (each step
follows one stored delegation edge from leader to follower) that avoids
the cutoff user `F` at every node except possibly the root endpoint
itself. -/
inductive ReachAvoiding (G : List Delegation) (F root : UserId) :
    UserId → Prop
  | refl : ReachAvoiding G F root root
  | step {l f : UserId} (d : Delegation) (hl : ReachAvoiding G F root l)
      (hd : d ∈ G) (hdl : d.leader = l) (hdf : d.follower = f)
      (hf : f ≠ F) : ReachAvoiding G F root f

/-- Numeric encoding of a nullable foreign key column. -/
def optKey : Option Nat → Nat
  | none => 0
  | some d => d + 1

/-- Injective numeric key of a CTE row, used to enumerate the write set
in a fixed deterministic order. -/
def rowKey (r : Row) : Nat :=
  Nat.pair r.user (Nat.pair r.poll (Nat.pair r.choice (optKey r.delegate)))

/-- Ordering of CTE rows by key. -/
def rowLE (a b : Row) : Prop := rowKey a ≤ rowKey b

instance : DecidableRel rowLE := fun _ _ => Nat.decLe _ _

instance : IsTrans Row rowLE := ⟨fun _ _ _ => Nat.le_trans⟩

instance : IsTotal Row rowLE := ⟨fun _ _ => Nat.le_total _ _⟩

theorem optKey_inj {a b : Option Nat} (h : optKey a = optKey b) : a = b := by
  cases a <;> cases b <;> simp_all [optKey]

theorem rowKey_inj {a b : Row} (h : rowKey a = rowKey b) : a = b := by
  unfold rowKey at h
  have h1 := (Nat.pair_eq_pair.mp h).1
  have h2 := (Nat.pair_eq_pair.mp (Nat.pair_eq_pair.mp h).2).1
  have h3 := (Nat.pair_eq_pair.mp (Nat.pair_eq_pair.mp (Nat.pair_eq_pair.mp h).2).2).1
  have h4 := optKey_inj
    (Nat.pair_eq_pair.mp (Nat.pair_eq_pair.mp (Nat.pair_eq_pair.mp h).2).2).2
  cases a; cases b; simp_all

instance : IsAntisymm Row rowLE :=
  ⟨fun _ _ h1 h2 => rowKey_inj (Nat.le_antisymm h1 h2)⟩

/-- Deterministic enumeration of a finite set of CTE rows, in increasing
key order (insertion sort lifted to the quotient). -/
def sortedRows (s : Finset Row) : List Row :=
  Quot.liftOn s.val (fun l => l.insertionSort rowLE) (fun _ _ h =>
    List.eq_of_perm_of_sorted
      ((List.perm_insertionSort rowLE _).trans
        (h.trans (List.perm_insertionSort rowLE _).symm))
      (List.sorted_insertionSort rowLE _)
      (List.sorted_insertionSort rowLE _))

theorem sortedRows_coe (s : Finset Row) :
    (↑(sortedRows s) : Multiset Row) = s.val := by
  rcases s with ⟨m, hm⟩
  induction m using Quot.inductionOn
  exact Quot.sound (List.perm_insertionSort rowLE _)

theorem mem_sortedRows {s : Finset Row} {r : Row} :
    r ∈ sortedRows s ↔ r ∈ s := by
  have h := sortedRows_coe s
  constructor
  · intro hr
    exact Finset.mem_def.mpr (h ▸ Multiset.mem_coe.mpr hr)
  · intro hr
    exact Multiset.mem_coe.mp (h ▸ Finset.mem_def.mp hr)

instance {ε α : Type} [DecidableEq ε] [DecidableEq α] :
    DecidableEq (Except ε α) := fun x y =>
  match x, y with
  | .ok a, .ok b =>
    if h : a = b then .isTrue (by rw [h])
    else .isFalse (by intro hh; cases hh; exact h rfl)
  | .error a, .error b =>
    if h : a = b then .isTrue (by rw [h])
    else .isFalse (by intro hh; cases hh; exact h rfl)
  | .ok _, .error _ => .isFalse (by intro hh; cases hh)
  | .error _, .ok _ => .isFalse (by intro hh; cases hh)

/-- The error taxonomy of vote submission.  `pollClosed` and
`invalidChoice` are the named exceptions raised by `Poll.set_vote`;
`unauthorized` and `directVoteProtected` name its two bare
`raise Exception()` sites; `integrityError` is the storage layer
rejecting an insert that violates the (user, poll) uniqueness
constraint. -/
inductive SetVoteError where
  | pollClosed
  | invalidChoice
  | unauthorized
  | directVoteProtected
  | integrityError
deriving DecidableEq, Repr

/-- Convert a CTE row into the vote row the bulk `INSERT` stores. -/
def rowToVote (r : Row) : Vote :=
  ⟨r.user, r.poll, r.choice, r.delegate⟩

/-- The storage layer executing the bulk `INSERT`: it fails (unique
constraint violation on `('user', 'poll')`) iff a fresh row collides with
an existing row or with another fresh row; otherwise the rows are
appended. -/
def bulkInsert (V : List Vote) (rows : List Vote) : Option (List Vote) :=
  if rows.all (fun r => V.all (fun w => !clash r w)) && nodupPairs rows then
    some (V ++ rows)
  else none

/-- The `post_save` signal on `Vote`: after a row is saved,
`propagate_vote` runs its recursive `INSERT` against the current table
state (which already contains the saved row).  A constraint violation of
the insert aborts the unit of work. -/
def savePropagate (db : DB) (p : Poll) (v : Vote) :
    Except SetVoteError (DB × Vote) :=
  let ws := propagate_vote db.delegations db.votes p v.user v.choice
  match bulkInsert db.votes ((sortedRows ws).map rowToVote) with
  | some votes2 => .ok (⟨votes2, db.delegations⟩, v)
  | none => .error .integrityError

/-- In-place update of the unique vote row of `(user, poll)`:
`vote.choice = choice; vote.delegate = delegate; vote.save()`. -/
def updateVote (V : List Vote) (poll : PollId) (user : UserId)
    (v : Vote) : List Vote :=
  V.map (fun w => if w.user == user && w.poll == poll then v else w)

/-- Guard `if secure and delegate:` — the authorization lookup runs only
for a delegated submission, and fails when no matching delegation row
exists. -/
def authRequiredFails (db : DB) (p : Poll) (user : UserId)
    (delegate : Option UserId) : Bool :=
  match delegate with
  | none => false
  | some l => !checkAuth db p user l

/-- Embedding of `Poll.set_vote(user, choice, delegate=None, secure=True)`:
validate the submission, save the vote row, and let the `post_save`
signal propagate it.  Every raise site precedes any write, so an error
result carries no new state (nothing was written). -/
def set_vote (db : DB) (p : Poll) (user : UserId) (c : Choice)
    (delegate : Option UserId) (secure : Bool) :
    Except SetVoteError (DB × Vote) :=
  if !p.is_open then
    .error .pollClosed
  else if c.poll != p.id then
    .error .invalidChoice
  else if secure && authRequiredFails db p user delegate then
    .error .unauthorized
  else
    match get_vote db.votes p user with
    | none =>
      let v : Vote := ⟨user, p.id, c.id, delegate⟩
      savePropagate ⟨db.votes ++ [v], db.delegations⟩ p v
    | some w =>
      if secure && delegate.isSome && w.delegate.isNone then
        .error .directVoteProtected
      else
        let v : Vote := ⟨user, p.id, c.id, delegate⟩
        savePropagate ⟨updateVote db.votes p.id user v, db.delegations⟩ p v

/-- The errors of delegation creation: the `pre_save` signal
`prevent_delegation_to_self` raises `CantDelegateToSelf`, and the
`unique_together = ('leader', 'follower')` constraint rejects a duplicate
edge. -/
inductive DelegationError where
  | cantDelegateToSelf
  | duplicateEdge
deriving DecidableEq, Repr

/-- Saving a `Delegation`: the `pre_save` signal rejects a self-edge
before persistence; the uniqueness constraint rejects a duplicate
(leader, follower) pair; otherwise the edge is stored. -/
def save_delegation (db : DB) (d : Delegation) :
    Except DelegationError DB :=
  if d.leader == d.follower then
    .error .cantDelegateToSelf
  else if db.delegations.any (fun e =>
      e.leader == d.leader && e.follower == d.follower) then
    .error .duplicateEdge
  else
    .ok ⟨db.votes, db.delegations ++ [d]⟩

/-! ### Concrete fixtures

Small databases used by the witnesses and counterexamples below.
User ids play the roles: 1 = A, 2 = B, 3 = C, 4 = D, 7 = a voter,
9 = a claimed delegate. -/

/-- An open poll without category. -/
def exPoll : Poll := ⟨1, none, true⟩

/-- A closed poll without category. -/
def closedPoll : Poll := ⟨1, none, false⟩

/-- A choice belonging to `exPoll`. -/
def exChoice : Choice := ⟨10, 1⟩

/-- A choice belonging to some other poll. -/
def offChoice : Choice := ⟨10, 2⟩

/-- A database where user 7 has a direct vote (delegate null) on poll 1
and no delegation exists. -/
def directDB : DB := ⟨[⟨7, 1, 11, none⟩], []⟩

/-- A database where user 7 has a direct vote on poll 1 and user 9 is an
authorized global delegate of user 7. -/
def directAuthDB : DB := ⟨[⟨7, 1, 11, none⟩], [⟨7, 9, ∅⟩]⟩

/-- The empty database. -/
def emptyDB : DB := ⟨[], []⟩

/-- Delegation graph of the chain scenario: B and C follow A globally,
D follows B globally. -/
def chainG : List Delegation := [⟨2, 1, ∅⟩, ⟨3, 1, ∅⟩, ⟨4, 2, ∅⟩]

/-- Fresh database holding only the chain graph. -/
def chainDB : DB := ⟨[], chainG⟩

/-- The database after A casts `exChoice` directly on `exPoll` in
`chainDB`: everyone inherited the choice through their immediate
leader. -/
def chainOut : DB :=
  ⟨[⟨1, 1, 10, none⟩, ⟨2, 1, 10, some 1⟩, ⟨3, 1, 10, some 1⟩,
    ⟨4, 1, 10, some 2⟩], chainG⟩

/-- Diamond graph: B follows A, C follows A and C also follows B. -/
def diamondG : List Delegation := [⟨2, 1, ∅⟩, ⟨3, 1, ∅⟩, ⟨3, 2, ∅⟩]

/-- Vote table holding only A's fresh root vote on poll 1. -/
def diamondV : List Vote := [⟨1, 1, 10, none⟩]

/-- Vote table of the cutoff scenario: A's fresh root vote plus B's
earlier direct vote on poll 1. -/
def cutoffV : List Vote := [⟨1, 1, 10, none⟩, ⟨2, 1, 11, none⟩]

/-- A delegation of user 2 to user 1 scoped to category 5. -/
def scopedDeleg : Delegation := ⟨2, 1, {5}⟩

/-- An open poll of category 5 (inside `scopedDeleg`'s scope). -/
def finPoll : Poll := ⟨1, some 5, true⟩

end Decision

/-! ## Theorems -/

namespace Decision

theorem savePropagate_cases (db : DB) (p : Poll) (v : Vote) :
    (∃ db2, savePropagate db p v = .ok (db2, v)) ∨
      savePropagate db p v = .error .integrityError := by
  unfold savePropagate
  cases h : bulkInsert db.votes
      ((sortedRows (propagate_vote db.delegations db.votes p v.user
        v.choice)).map rowToVote) with
  | none => right; simp [h]
  | some votes2 => left; exact ⟨⟨votes2, db.delegations⟩, by simp [h]⟩

theorem savePropagate_ne (db : DB) (p : Poll) (v : Vote)
    (e : SetVoteError) (he : e ≠ .integrityError) :
    savePropagate db p v ≠ .error e := by
  rcases savePropagate_cases db p v with ⟨db2, h⟩ | h <;> rw [h]
  · intro hc; cases hc
  · intro hc; cases hc; exact he rfl

/-- C10: for every poll and user, `get_user_choice` returns the choice of
the user's vote when one exists for that poll, and returns `None` (rather
than raising) when the user has no vote for that poll. -/
theorem get_user_choice_correct (db : DB) (p : Poll) (user : UserId) :
    (∀ v, get_vote db.votes p user = some v →
      get_user_choice db p user = some v.choice) ∧
    (get_vote db.votes p user = none → get_user_choice db p user = none) := by
  constructor
  · intro v hv; simp [get_user_choice, hv]
  · intro hv; simp [get_user_choice, hv]

theorem get_user_choice_correct_witness :
    (get_vote directDB.votes exPoll 7 = some ⟨7, 1, 11, none⟩ ∧
      get_user_choice directDB exPoll 7 = some 11) ∧
    (get_vote emptyDB.votes exPoll 7 = none ∧
      get_user_choice emptyDB exPoll 7 = none) :=
  ⟨⟨by decide, by
      have h := (get_user_choice_correct directDB exPoll 7).1
        ⟨7, 1, 11, none⟩ (by decide)
      exact h⟩,
   ⟨by decide, (get_user_choice_correct emptyDB exPoll 7).2 (by decide)⟩⟩

/-- C9: saving a delegation whose follower equals its leader fails with
`CantDelegateToSelf` before persistence, and every successful save
preserves the invariant that no stored edge has follower = leader. -/
theorem no_self_delegation (db : DB) (d : Delegation) :
    (d.follower = d.leader →
      save_delegation db d = .error .cantDelegateToSelf) ∧
    (∀ db2, save_delegation db d = .ok db2 →
      (∀ e ∈ db.delegations, e.follower ≠ e.leader) →
      ∀ e ∈ db2.delegations, e.follower ≠ e.leader) := by
  constructor
  · intro h
    simp [save_delegation, h]
  · intro db2 hok hinv e he
    unfold save_delegation at hok
    split at hok
    · cases hok
    · split at hok
      · cases hok
      · rename_i hne _
        cases hok
        rcases List.mem_append.mp he with h | h
        · exact hinv e h
        · rcases List.mem_singleton.mp h with rfl
          intro hEq
          exact hne (by simp [hEq])

theorem set_vote_result_shape (db : DB) (p : Poll) (user : UserId)
    (c : Choice) (delegate : Option UserId) (secure : Bool)
    (h1 : p.is_open = true) (h2 : c.poll = p.id) :
    set_vote db p user c delegate secure = .error .unauthorized ∨
    set_vote db p user c delegate secure = .error .directVoteProtected ∨
    set_vote db p user c delegate secure = .error .integrityError ∨
    ∃ r, set_vote db p user c delegate secure = .ok r := by
  unfold set_vote
  split
  · rename_i hc; rw [h1] at hc; simp at hc
  split
  · rename_i hc; rw [h2] at hc; simp at hc
  split
  · exact .inl rfl
  split
  · rcases savePropagate_cases
        ⟨db.votes ++ [⟨user, p.id, c.id, delegate⟩], db.delegations⟩ p
        ⟨user, p.id, c.id, delegate⟩ with ⟨db2, h⟩ | h
    · exact .inr (.inr (.inr ⟨(db2, _), h⟩))
    · exact .inr (.inr (.inl h))
  · split
    · exact .inr (.inl rfl)
    · rcases savePropagate_cases
          ⟨updateVote db.votes p.id user ⟨user, p.id, c.id, delegate⟩,
            db.delegations⟩ p ⟨user, p.id, c.id, delegate⟩ with ⟨db2, h⟩ | h
      · exact .inr (.inr (.inr ⟨(db2, _), h⟩))
      · exact .inr (.inr (.inl h))

/-- C8: a call on a closed poll fails with `PollClosed` (nothing is
written: the raise precedes every write); an open-poll call whose choice
belongs to a different poll fails with `InvalidChoice`; a call passing
both checks never produces either of these two errors. -/
theorem set_vote_precondition_errors (db : DB) (p : Poll) (user : UserId)
    (c : Choice) (delegate : Option UserId) (secure : Bool) :
    (p.is_open = false →
      set_vote db p user c delegate secure = .error .pollClosed) ∧
    (p.is_open = true → c.poll ≠ p.id →
      set_vote db p user c delegate secure = .error .invalidChoice) ∧
    (p.is_open = true → c.poll = p.id →
      set_vote db p user c delegate secure ≠ .error .pollClosed ∧
      set_vote db p user c delegate secure ≠ .error .invalidChoice) := by
  refine ⟨fun h1 => by simp [set_vote, h1],
    fun h1 h2 => by simp [set_vote, h1, h2], ?_⟩
  intro h1 h2
  rcases set_vote_result_shape db p user c delegate secure h1 h2 with
    h | h | h | ⟨r, h⟩ <;> rw [h] <;>
    exact ⟨(by intro hc; cases hc), (by intro hc; cases hc)⟩

theorem set_vote_precondition_errors_witness :
    (closedPoll.is_open = false ∧
      set_vote emptyDB closedPoll 7 exChoice none true = .error .pollClosed) ∧
    (exPoll.is_open = true ∧ offChoice.poll ≠ exPoll.id ∧
      set_vote emptyDB exPoll 7 offChoice none true = .error .invalidChoice) ∧
    (exPoll.is_open = true ∧ exChoice.poll = exPoll.id ∧
      set_vote emptyDB exPoll 7 exChoice none true ≠ .error .pollClosed ∧
      set_vote emptyDB exPoll 7 exChoice none true ≠ .error .invalidChoice) :=
  ⟨⟨by decide,
    (set_vote_precondition_errors emptyDB closedPoll 7 exChoice none true).1
      (by decide)⟩,
   ⟨by decide, by decide,
    (set_vote_precondition_errors emptyDB exPoll 7 offChoice none true).2.1
      (by decide) (by decide)⟩,
   ⟨by decide, by decide,
    (set_vote_precondition_errors emptyDB exPoll 7 exChoice none true).2.2
      (by decide) (by decide)⟩⟩

/-- C3: under the two other admission conditions (the edge's leader is a
current CTE row's user, the follower has no vote yet), a candidate is
admitted by the recursive query exactly when `extra_condition` holds; and
`extra_condition` is precisely the scoping rule: an empty category set
matches every poll, a non-empty set matches exactly the polls whose
category lies in the set (hence never a category-less poll). -/
theorem propagation_scope_rule (G : List Delegation) (V : List Vote)
    (p : Poll) (d : Delegation) (row : Row) (s : Finset Row)
    (hd : d ∈ G) (hrow : row ∈ s) (hleader : d.leader = row.user)
    (hnovote : countVotes V d.follower row.poll < 1) :
    (admits V p row d = extraCond d p) ∧
    (extraCond d p = true → mkCandidate d row ∈ dlgStep G V p s) ∧
    (d.categories = ∅ → extraCond d p = true) ∧
    (d.categories ≠ ∅ →
      (extraCond d p = true ↔
        ∃ c, p.category = some c ∧ c ∈ d.categories)) := by
  have hadm : admits V p row d = extraCond d p := by
    simp [admits, hleader, hnovote]
  refine ⟨hadm, fun hx => ?_, fun hempty => ?_, fun hne => ?_⟩
  · apply Finset.mem_union_right
    apply Finset.mem_biUnion.mpr
    refine ⟨row, hrow, ?_⟩
    apply List.mem_toFinset.mpr
    apply List.mem_map.mpr
    exact ⟨d, List.mem_filter.mpr ⟨hd, by rw [hadm, hx]⟩, rfl⟩
  · cases hcat : p.category <;> simp [extraCond, hcat, hempty]
  · cases hcat : p.category with
    | none =>
      simp only [extraCond, hcat, decide_eq_true_eq, Nat.lt_one_iff,
        Finset.card_eq_zero]
      simp [hne]
    | some c0 =>
      simp [extraCond, hcat, hne]

theorem propagation_scope_rule_witness :
    (scopedDeleg ∈ [scopedDeleg] ∧
      (⟨1, 1, 10, none⟩ : Row) ∈ ({⟨1, 1, 10, none⟩} : Finset Row) ∧
      scopedDeleg.leader = (⟨1, 1, 10, none⟩ : Row).user ∧
      countVotes [] scopedDeleg.follower (⟨1, 1, 10, none⟩ : Row).poll < 1) ∧
    ((admits [] finPoll ⟨1, 1, 10, none⟩ scopedDeleg =
        extraCond scopedDeleg finPoll) ∧
     (extraCond scopedDeleg finPoll = true →
        mkCandidate scopedDeleg ⟨1, 1, 10, none⟩ ∈
          dlgStep [scopedDeleg] [] finPoll {⟨1, 1, 10, none⟩}) ∧
     (scopedDeleg.categories = ∅ → extraCond scopedDeleg finPoll = true) ∧
     (scopedDeleg.categories ≠ ∅ →
        (extraCond scopedDeleg finPoll = true ↔
          ∃ c, finPoll.category = some c ∧ c ∈ scopedDeleg.categories))) :=
  by
  have happ := propagation_scope_rule [scopedDeleg] [] finPoll scopedDeleg
    ⟨1, 1, 10, none⟩ {⟨1, 1, 10, none⟩} (List.mem_singleton_self _)
    (Finset.mem_singleton_self _) rfl Nat.zero_lt_one
  refine ⟨⟨List.mem_singleton_self _, Finset.mem_singleton_self _, rfl,
    Nat.zero_lt_one⟩, ?_, ?_, ?_, ?_⟩
  · exact happ.1
  · exact happ.2.1
  · exact happ.2.2.1
  · exact happ.2.2.2

theorem set_vote_secure_delegate_direct_errors (db : DB) (p : Poll)
    (user : UserId) (c : Choice) (l : UserId) (v : Vote)
    (hv : get_vote db.votes p user = some v) (hd : v.delegate = none) :
    set_vote db p user c (some l) true = .error .pollClosed ∨
    set_vote db p user c (some l) true = .error .invalidChoice ∨
    set_vote db p user c (some l) true = .error .unauthorized ∨
    set_vote db p user c (some l) true = .error .directVoteProtected := by
  unfold set_vote
  split
  · exact .inl rfl
  split
  · exact .inr (.inl rfl)
  split
  · exact .inr (.inr (.inl rfl))
  split
  · rename_i heq
    rw [heq] at hv; cases hv
  · rename_i w heq
    rw [heq] at hv
    injection hv with hvw
    subst hvw
    rw [hd]
    simp

/-- C2 (amended): for a secured submission (`secure=True`) naming a
delegate, an existing direct vote (delegate null) is never overwritten:
the call never succeeds, whatever database, poll, choice or claimed
leader.  (With `secure=False` the overwrite does go through, see the
counterexample.) -/
theorem direct_to_inherited_rejected_when_secure (db : DB) (p : Poll)
    (user : UserId) (c : Choice) (l : UserId) (v : Vote)
    (hv : get_vote db.votes p user = some v) (hd : v.delegate = none) :
    ∀ r, set_vote db p user c (some l) true ≠ .ok r := by
  intro r h
  rcases set_vote_secure_delegate_direct_errors db p user c l v hv hd with
    h2 | h2 | h2 | h2 <;> rw [h2] at h <;> cases h

theorem direct_to_inherited_rejected_when_secure_witness :
    get_vote directAuthDB.votes exPoll 7 = some ⟨7, 1, 11, none⟩ ∧
    ∀ r, set_vote directAuthDB exPoll 7 exChoice (some 9) true ≠ .ok r :=
  ⟨by decide,
   direct_to_inherited_rejected_when_secure directAuthDB exPoll 7 exChoice 9
     ⟨7, 1, 11, none⟩ (by decide) rfl⟩

/-- C2 counterexample: user 7 holds a direct vote (delegate null) on the
open poll, yet the call `set_vote(..., delegate=9, secure=False)`
succeeds and leaves the stored vote with delegate 9 — the Direct →
Inherited transition is not rejected for every submission, only for
secured ones. -/
theorem direct_to_inherited_insecure_counterexample :
    get_vote directDB.votes exPoll 7 = some ⟨7, 1, 11, none⟩ ∧
    (set_vote directDB exPoll 7 exChoice (some 9) false).map
      (fun x => x.2.delegate) = .ok (some 9) ∧
    (set_vote directDB exPoll 7 exChoice (some 9) false).map
      (fun x => x.1.votes) = .ok [⟨7, 1, 10, some 9⟩] := by
  decide

/-- C6 (amended): a secured delegated submission against an existing
direct vote always fails — with `DirectVoteProtected` whenever the
poll-open, choice-validity and authorization checks pass (with the error
of the respective earlier check otherwise) — and, every raise preceding
every write, the stored votes are unchanged. -/
theorem secured_submission_protects_direct (db : DB) (p : Poll)
    (user : UserId) (c : Choice) (l : UserId) (v : Vote)
    (hv : get_vote db.votes p user = some v) (hd : v.delegate = none) :
    (∀ r, set_vote db p user c (some l) true ≠ .ok r) ∧
    (p.is_open = true → c.poll = p.id → checkAuth db p user l = true →
      set_vote db p user c (some l) true = .error .directVoteProtected) := by
  constructor
  · intro r h
    rcases set_vote_secure_delegate_direct_errors db p user c l v hv hd with
      h2 | h2 | h2 | h2 <;> rw [h2] at h <;> cases h
  · intro h1 h2 hauth
    unfold set_vote
    split
    · rename_i hc; rw [h1] at hc; simp at hc
    split
    · rename_i hc; rw [h2] at hc; simp at hc
    split
    · rename_i hc; simp [authRequiredFails, hauth] at hc
    split
    · rename_i heq; rw [heq] at hv; cases hv
    · rename_i w heq
      rw [heq] at hv
      injection hv with hvw
      subst hvw
      rw [hd]
      simp

theorem secured_submission_protects_direct_witness :
    (get_vote directAuthDB.votes exPoll 7 = some ⟨7, 1, 11, none⟩ ∧
      checkAuth directAuthDB exPoll 7 9 = true) ∧
    set_vote directAuthDB exPoll 7 exChoice (some 9) true =
      .error .directVoteProtected :=
  ⟨⟨by decide, by decide⟩,
   (secured_submission_protects_direct directAuthDB exPoll 7 exChoice 9
      ⟨7, 1, 11, none⟩ (by decide) rfl).2 rfl rfl (by decide)⟩

/-- C6 counterexample: user 7 holds a direct vote but no authorizing
delegation exists, so the secured delegated call fails with the error of
the authorization check (`unauthorized`), not with
`DirectVoteProtected` as the claim states. -/
theorem secured_submission_wrong_error_counterexample :
    get_vote directDB.votes exPoll 7 = some ⟨7, 1, 11, none⟩ ∧
    set_vote directDB exPoll 7 exChoice (some 9) true =
      .error .unauthorized := by
  decide

theorem checkAuth_iff (db : DB) (p : Poll) (user l : UserId) :
    checkAuth db p user l = true ↔
      ∃ d ∈ db.delegations,
        d.leader = l ∧ d.follower = user ∧ authScope d p = true := by
  simp [checkAuth, List.any_eq_true, Bool.and_eq_true, beq_iff_eq]
  tauto

theorem set_vote_not_unauthorized_of_auth (db : DB) (p : Poll)
    (user : UserId) (c : Choice) (l : UserId)
    (hauth : checkAuth db p user l = true) :
    set_vote db p user c (some l) true ≠ .error .unauthorized := by
  unfold set_vote
  split
  · intro hc; cases hc
  split
  · intro hc; cases hc
  split
  · rename_i hc; simp [authRequiredFails, hauth] at hc
  split
  · exact savePropagate_ne _ _ _ .unauthorized (by intro hc; cases hc)
  · split
    · intro hc; cases hc
    · exact savePropagate_ne _ _ _ .unauthorized (by intro hc; cases hc)

theorem set_vote_none_not_unauthorized (db : DB) (p : Poll)
    (user : UserId) (c : Choice) (secure : Bool) :
    set_vote db p user c none secure ≠ .error .unauthorized := by
  unfold set_vote
  split
  · intro hc; cases hc
  split
  · intro hc; cases hc
  split
  · rename_i hc; simp [authRequiredFails] at hc
  split
  · exact savePropagate_ne _ _ _ .unauthorized (by intro hc; cases hc)
  · split
    · intro hc; cases hc
    · exact savePropagate_ne _ _ _ .unauthorized (by intro hc; cases hc)

/-- C7 (amended): for a secured delegated call that passes the poll-open
and choice-validity checks, the call fails with the `unauthorized` error
iff no delegation of that leader over that follower matches the poll's
category scope; a direct self-vote (delegate null) never produces this
error.  (Without the two preconditions the iff fails: a closed poll
yields `PollClosed` even when no delegation exists, see the
counterexample.) -/
theorem unauthorized_error_iff (db : DB) (p : Poll) (user : UserId)
    (c : Choice) (l : UserId)
    (h1 : p.is_open = true) (h2 : c.poll = p.id) :
    (set_vote db p user c (some l) true = .error .unauthorized ↔
      ¬ ∃ d ∈ db.delegations,
        d.leader = l ∧ d.follower = user ∧ authScope d p = true) ∧
    (∀ (c2 : Choice) (secure : Bool),
      set_vote db p user c2 none secure ≠ .error .unauthorized) := by
  refine ⟨⟨fun h hex => ?_, fun hnex => ?_⟩,
    fun c2 secure => set_vote_none_not_unauthorized db p user c2 secure⟩
  · exact set_vote_not_unauthorized_of_auth db p user c l
      ((checkAuth_iff db p user l).mpr hex) h
  · have hc : checkAuth db p user l = false := by
      cases hcc : checkAuth db p user l
      · rfl
      · exact absurd ((checkAuth_iff db p user l).mp hcc) hnex
    unfold set_vote
    split
    · rename_i hcond; rw [h1] at hcond; simp at hcond
    split
    · rename_i hcond; rw [h2] at hcond; simp at hcond
    split
    · rfl
    · rename_i hcond
      simp [authRequiredFails, hc] at hcond

theorem unauthorized_error_iff_witness :
    (exPoll.is_open = true ∧ exChoice.poll = exPoll.id) ∧
    ((set_vote emptyDB exPoll 7 exChoice (some 9) true =
        .error .unauthorized ↔
      ¬ ∃ d ∈ emptyDB.delegations,
        d.leader = 9 ∧ d.follower = 7 ∧ authScope d exPoll = true) ∧
     (∀ (c2 : Choice) (secure : Bool),
        set_vote emptyDB exPoll 7 c2 none secure ≠ .error .unauthorized)) :=
  ⟨⟨rfl, rfl⟩, unauthorized_error_iff emptyDB exPoll 7 exChoice 9 rfl rfl⟩

/-- C7 counterexample: on a closed poll the secured delegated call fails
with `PollClosed` although no delegation at all exists, so "fails with
the `Unauthorized` error iff no matching delegation exists" is false as
stated (the iff needs the poll-open and choice checks as
preconditions). -/
theorem unauthorized_iff_closed_counterexample :
    emptyDB.delegations = [] ∧
    set_vote emptyDB closedPoll 7 exChoice (some 9) true =
      .error .pollClosed := by
  decide

theorem dlgStep_infl (G : List Delegation) (V : List Vote) (p : Poll)
    (s : Finset Row) : s ⊆ dlgStep G V p s :=
  Finset.subset_union_left

theorem mem_rowUniverse_fields {G : List Delegation} {p : Poll}
    {root : UserId} {choice : ChoiceId} {r : Row}
    (h : r ∈ rowUniverse G p root choice) :
    r.poll = p.id ∧ r.choice = choice := by
  rcases Finset.mem_insert.mp h with h | h
  · subst h; exact ⟨rfl, rfl⟩
  · rcases List.mem_map.mp (List.mem_toFinset.mp h) with ⟨d, _, rfl⟩
    exact ⟨rfl, rfl⟩

theorem dlgStep_closed (G : List Delegation) (V : List Vote) (p : Poll)
    (root : UserId) (choice : ChoiceId) (s : Finset Row)
    (hs : s ⊆ rowUniverse G p root choice) :
    dlgStep G V p s ⊆ rowUniverse G p root choice := by
  intro r hr
  rcases Finset.mem_union.mp hr with h | h
  · exact hs h
  · rcases Finset.mem_biUnion.mp h with ⟨row, hrow, hmem⟩
    rcases List.mem_map.mp (List.mem_toFinset.mp hmem) with ⟨d, hdf, rfl⟩
    obtain ⟨hp, hc⟩ := mem_rowUniverse_fields (hs hrow)
    have hdG := (List.mem_filter.mp hdf).1
    apply Finset.mem_insert.mpr
    right
    apply List.mem_toFinset.mpr
    apply List.mem_map.mpr
    exact ⟨d, hdG, by simp [mkCandidate, hp, hc]⟩

theorem dlgIter_subset_universe (G : List Delegation) (V : List Vote)
    (p : Poll) (root : UserId) (choice : ChoiceId) :
    ∀ n, dlgIter G V p root choice n ⊆ rowUniverse G p root choice := by
  intro n
  induction n with
  | zero =>
    intro r hr
    rw [dlgIter, Function.iterate_zero_apply] at hr
    rcases Finset.mem_singleton.mp hr with rfl
    exact Finset.mem_insert_self _ _
  | succ n ih =>
    rw [dlgIter, Function.iterate_succ_apply']
    exact dlgStep_closed G V p root choice _ ih

theorem iterate_fixed_of_bounded {α : Type} [DecidableEq α]
    (f : Finset α → Finset α) (hinfl : ∀ s, s ⊆ f s)
    (U : Finset α) (hcl : ∀ s, s ⊆ U → f s ⊆ U)
    (s0 : Finset α) (h0 : s0 ⊆ U) (N : Nat)
    (hN : U.card < N + s0.card) :
    f (f^[N] s0) = f^[N] s0 := by
  have hsub : ∀ n, f^[n] s0 ⊆ U := by
    intro n
    induction n with
    | zero => exact h0
    | succ n ih => rw [Function.iterate_succ_apply']; exact hcl _ ih
  have aux : ∀ n, f (f^[n] s0) = f^[n] s0 ∨
      n + s0.card ≤ (f^[n] s0).card := by
    intro n
    induction n with
    | zero => right; simp
    | succ n ih =>
      rcases ih with hfix | hcard
      · left
        rw [Function.iterate_succ_apply', hfix]
        exact hfix
      · by_cases hf : f (f^[n] s0) = f^[n] s0
        · left
          rw [Function.iterate_succ_apply', hf]
          exact hf
        · right
          rw [Function.iterate_succ_apply']
          have hss : f^[n] s0 ⊂ f (f^[n] s0) :=
            Finset.ssubset_iff_subset_ne.mpr ⟨hinfl _, fun h => hf h.symm⟩
          have hlt := Finset.card_lt_card hss
          omega
  rcases aux N with hfix | hcard
  · exact hfix
  · exfalso
    have hle := Finset.card_le_card (hsub N)
    omega

theorem rowUniverse_card_le (G : List Delegation) (p : Poll)
    (root : UserId) (choice : ChoiceId) :
    (rowUniverse G p root choice).card ≤ G.length + 1 := by
  have h1 := Finset.card_insert_le (seedRow p root choice)
    ((G.map (fun d =>
      (⟨d.follower, p.id, choice, some d.leader⟩ : Row))).toFinset)
  have h2 := List.toFinset_card_le
    (G.map (fun d => (⟨d.follower, p.id, choice, some d.leader⟩ : Row)))
  rw [List.length_map] at h2
  unfold rowUniverse
  omega

/-- C5: on every finite delegation graph — cyclic ones included — the
recursive propagation query reaches its fixed point within `|G| + 1`
rounds (one further round adds nothing), and the resulting write set is
finite with at most one row per delegation edge. -/
theorem propagation_terminates (G : List Delegation) (V : List Vote)
    (p : Poll) (root : UserId) (choice : ChoiceId) :
    dlgStep G V p (dlgIter G V p root choice (G.length + 1)) =
      dlgIter G V p root choice (G.length + 1) ∧
    (propagate_vote G V p root choice).card ≤ G.length := by
  constructor
  · refine iterate_fixed_of_bounded (dlgStep G V p) (dlgStep_infl G V p)
      (rowUniverse G p root choice)
      (fun s hs => dlgStep_closed G V p root choice s hs)
      {seedRow p root choice} ?_ (G.length + 1) ?_
    · exact Finset.singleton_subset_iff.mpr (Finset.mem_insert_self _ _)
    · have hcard := rowUniverse_card_le G p root choice
      have hone : ({seedRow p root choice} : Finset Row).card = 1 :=
        Finset.card_singleton _
      omega
  · have hsub : propagate_vote G V p root choice ⊆
        (G.map (fun d =>
          (⟨d.follower, p.id, choice, some d.leader⟩ : Row))).toFinset := by
      intro r hr
      rcases Finset.mem_filter.mp hr with ⟨hin, hne⟩
      have hU := dlgIter_subset_universe G V p root choice (G.length + 1) hin
      rcases Finset.mem_insert.mp hU with h | h
      · exact absurd (show r.user = root by rw [h]; rfl) hne
      · exact h
    have hle := Finset.card_le_card hsub
    have h2 := List.toFinset_card_le
      (G.map (fun d => (⟨d.follower, p.id, choice, some d.leader⟩ : Row)))
    rw [List.length_map] at h2
    omega

theorem dlgIter_cutoff_invariant (G : List Delegation) (V : List Vote)
    (p : Poll) (root : UserId) (choice : ChoiceId) (F : UserId)
    (hF : 0 < countVotes V F p.id) :
    ∀ n, ∀ row ∈ dlgIter G V p root choice n,
      row.poll = p.id ∧ ReachAvoiding G F root row.user ∧
        (row.user = F → row.user = root) := by
  intro n
  induction n with
  | zero =>
    intro row hrow
    rw [dlgIter, Function.iterate_zero_apply] at hrow
    rcases Finset.mem_singleton.mp hrow with rfl
    exact ⟨rfl, ReachAvoiding.refl, fun _ => rfl⟩
  | succ n ih =>
    intro row hrow
    rw [dlgIter, Function.iterate_succ_apply'] at hrow
    rcases Finset.mem_union.mp hrow with h | h
    · exact ih row h
    · rcases Finset.mem_biUnion.mp h with ⟨r0, hr0, hmem⟩
      rcases List.mem_map.mp (List.mem_toFinset.mp hmem) with ⟨d, hdf, rfl⟩
      rcases List.mem_filter.mp hdf with ⟨hdG, hadm⟩
      obtain ⟨hp0, hreach0, _⟩ := ih r0 hr0
      have hadm2 : (d.leader = r0.user ∧ extraCond d p = true) ∧
          countVotes V d.follower r0.poll = 0 := by
        simpa [admits, Bool.and_eq_true, beq_iff_eq, decide_eq_true_eq]
          using hadm
      obtain ⟨⟨hld, _⟩, hcount⟩ := hadm2
      have hfF : d.follower ≠ F := by
        intro hEq
        rw [hEq, hp0] at hcount
        omega
      exact ⟨hp0, ReachAvoiding.step d hreach0 hdG hld rfl hfF,
        fun huF => absurd huF hfF⟩

/-- C1: if follower `F` already has any vote (direct or inherited) for
the poll when a propagation run starts, the run writes no row for `F`,
and every user who does receive a row has a delegation chain down from
the root that avoids `F` at every node (except possibly the root
endpoint) — hence a user whose only delegation paths to the root pass
through `F` receives nothing from that run. -/
theorem propagation_cutoff (G : List Delegation) (V : List Vote)
    (p : Poll) (root : UserId) (choice : ChoiceId) (F : UserId)
    (hF : 0 < countVotes V F p.id) :
    ∀ row ∈ propagate_vote G V p root choice,
      row.user ≠ F ∧ ReachAvoiding G F root row.user := by
  intro row hrow
  rcases Finset.mem_filter.mp hrow with ⟨hin, hne⟩
  obtain ⟨_, hreach, hFroot⟩ :=
    dlgIter_cutoff_invariant G V p root choice F hF (G.length + 1) row hin
  exact ⟨fun h => hne (hFroot h), hreach⟩

theorem propagation_cutoff_witness :
    0 < countVotes cutoffV 2 exPoll.id ∧
    ∀ row ∈ propagate_vote chainG cutoffV exPoll 1 10,
      row.user ≠ 2 ∧ ReachAvoiding chainG 2 1 row.user :=
  ⟨by decide, propagation_cutoff chainG cutoffV exPoll 1 10 2 (by decide)⟩

theorem clash_eq_false_iff {a b : Vote} :
    clash a b = false ↔ ¬(a.user = b.user ∧ a.poll = b.poll) := by
  unfold clash
  cases h1 : (a.user == b.user) <;> cases h2 : (a.poll == b.poll) <;>
    simp_all

theorem clash_eq_false_symm {a b : Vote} (h : clash a b = false) :
    clash b a = false := by
  rw [clash_eq_false_iff] at h ⊢
  intro hc
  exact h ⟨hc.1.symm, hc.2.symm⟩

theorem nodupPairs_iff (rows : List Vote) :
    nodupPairs rows = true ↔
      List.Pairwise (fun a b => clash a b = false) rows := by
  induction rows with
  | nil => simp [nodupPairs]
  | cons r rs ih =>
    simp only [nodupPairs, Bool.and_eq_true, List.pairwise_cons,
      List.all_eq_true]
    rw [ih]
    constructor
    · rintro ⟨h1, h2⟩
      exact ⟨fun w hw => by simpa using h1 w hw, h2⟩
    · rintro ⟨h1, h2⟩
      exact ⟨fun w hw => by simpa using h1 w hw, h2⟩

theorem bulkInsert_ok {V rows out : List Vote}
    (h : bulkInsert V rows = some out) :
    out = V ++ rows ∧ (∀ r ∈ rows, ∀ w ∈ V, clash r w = false) ∧
      List.Pairwise (fun a b => clash a b = false) rows := by
  unfold bulkInsert at h
  split at h
  · rename_i hcond
    injection h with hout
    rw [Bool.and_eq_true] at hcond
    obtain ⟨hall, hnd⟩ := hcond
    refine ⟨hout.symm, ?_, (nodupPairs_iff rows).mp hnd⟩
    intro r hr w hw
    have h1 := List.all_eq_true.mp hall r hr
    have h2 := List.all_eq_true.mp h1 w hw
    simpa using h2
  · cases h

theorem uniqueVotes_append {V rows : List Vote} (hu : UniqueVotes V)
    (hrows : List.Pairwise (fun a b => clash a b = false) rows)
    (hcross : ∀ r ∈ rows, ∀ w ∈ V, clash r w = false) :
    UniqueVotes (V ++ rows) := by
  unfold UniqueVotes
  rw [List.pairwise_append]
  exact ⟨hu, hrows, fun a ha b hb => clash_eq_false_symm (hcross b hb a ha)⟩

theorem savePropagate_preserves_unique {db : DB} {p : Poll} {v : Vote}
    {db2 : DB} {v2 : Vote} (hu : UniqueVotes db.votes)
    (h : savePropagate db p v = .ok (db2, v2)) :
    UniqueVotes db2.votes := by
  simp only [savePropagate] at h
  split at h
  · rename_i votes2 heq
    injection h with hpair
    cases hpair
    obtain ⟨hout, hcross, hrows⟩ := bulkInsert_ok heq
    show UniqueVotes votes2
    rw [hout]
    exact uniqueVotes_append hu hrows hcross
  · cases h

theorem updateVote_preserves_unique {V : List Vote} {pollId : PollId}
    {user : UserId} {v : Vote} (hu : UniqueVotes V)
    (hvu : v.user = user) (hvp : v.poll = pollId) :
    UniqueVotes (updateVote V pollId user v) := by
  unfold updateVote UniqueVotes
  have gfields : ∀ w : Vote,
      (if w.user == user && w.poll == pollId then v else w).user = w.user ∧
      (if w.user == user && w.poll == pollId then v else w).poll = w.poll := by
    intro w
    split
    · rename_i hcond
      rw [Bool.and_eq_true] at hcond
      obtain ⟨h1, h2⟩ := hcond
      exact ⟨by rw [hvu, beq_iff_eq.mp h1],
        by rw [hvp, beq_iff_eq.mp h2]⟩
    · exact ⟨rfl, rfl⟩
  apply List.Pairwise.map _ ?_ hu
  intro a b hab
  have ha := gfields a
  have hb := gfields b
  unfold clash at hab ⊢
  rw [ha.1, ha.2, hb.1, hb.2]
  exact hab

/-- C4 (amended): every successful `set_vote` call (the triggered
propagation included) preserves the invariant that at most one vote row
exists per (user, poll) pair; within a run, the recursive query's
structural deduplication is by whole tuple, however, not by follower — a
follower reachable from the root via two different leaders is admitted
once per distinct delegate (see the counterexample), and that run's bulk
insert then fails on the (user, poll) uniqueness constraint instead of
writing both rows. -/
theorem set_vote_preserves_uniqueness (db : DB) (p : Poll) (user : UserId)
    (c : Choice) (delegate : Option UserId) (secure : Bool)
    (db2 : DB) (v : Vote) (hu : UniqueVotes db.votes)
    (h : set_vote db p user c delegate secure = .ok (db2, v)) :
    UniqueVotes db2.votes := by
  unfold set_vote at h
  split at h
  · cases h
  split at h
  · cases h
  split at h
  · cases h
  split at h
  · rename_i heq
    refine savePropagate_preserves_unique ?_ h
    show UniqueVotes (db.votes ++ [⟨user, p.id, c.id, delegate⟩])
    refine uniqueVotes_append hu (List.pairwise_singleton _ _) ?_
    intro r hr w hw
    rcases List.mem_singleton.mp hr with rfl
    have hnone := List.find?_eq_none.mp heq w hw
    rw [clash_eq_false_iff]
    intro hc
    apply hnone
    simp only [Bool.and_eq_true, beq_iff_eq]
    exact ⟨hc.1.symm, hc.2.symm⟩
  · rename_i w heq
    split at h
    · cases h
    · refine savePropagate_preserves_unique ?_ h
      exact updateVote_preserves_unique hu rfl rfl

theorem set_vote_preserves_uniqueness_witness :
    UniqueVotes chainDB.votes ∧ UniqueVotes chainOut.votes :=
  ⟨by decide,
   set_vote_preserves_uniqueness chainDB exPoll 1 exChoice none true
     chainOut ⟨1, 1, 10, none⟩ (by decide) (by decide)⟩

/-- C4 counterexample: in the diamond graph (B follows A, C follows both
A and B) a single propagation run admits follower C (user 3) twice —
once with delegate A (user 1) and once with delegate B (user 2) — since
the recursive query's `UNION` deduplicates whole rows, not followers;
the run's bulk insert then violates the (user, poll) uniqueness
constraint and the submission fails with `integrityError`. -/
theorem double_admission_counterexample :
    (⟨3, 1, 10, some 1⟩ : Row) ∈
      propagate_vote diamondG diamondV exPoll 1 10 ∧
    (⟨3, 1, 10, some 2⟩ : Row) ∈
      propagate_vote diamondG diamondV exPoll 1 10 ∧
    set_vote ⟨[], diamondG⟩ exPoll 1 exChoice none true =
      .error .integrityError := by
  decide

theorem no_self_delegation_witness :
    (save_delegation emptyDB ⟨7, 7, ∅⟩ = .error .cantDelegateToSelf) ∧
    (save_delegation emptyDB ⟨7, 9, ∅⟩ = .ok ⟨[], [⟨7, 9, ∅⟩]⟩ ∧
      ∀ e ∈ ([⟨7, 9, ∅⟩] : List Delegation), e.follower ≠ e.leader) :=
  ⟨(no_self_delegation emptyDB ⟨7, 7, ∅⟩).1 rfl,
   by decide,
   (no_self_delegation emptyDB ⟨7, 9, ∅⟩).2 ⟨[], [⟨7, 9, ∅⟩]⟩ (by decide)
     (by decide)⟩

end Decision
